import Mathlib

/-!
Verification development for the `rtmp_exporter` core: a shallow embedding of
the typed stats model (`rtmpstats/stats.go`), the scalar wire adapters
(`Duration`, `Boolean` in the rtmpstats helper file), the two built-in
mutators (`rtmpstats/mutations.go`), and the publisher-selection logic of the
Prometheus collector (`exporter.Collect`).

Modelling conventions:
* Go `time.Duration` values are `Int` nanosecond counts; Go `int` is `Int`;
  Go strings are `String`; Go `float64` fields that the code only carries
  around (the video `level` metadata) are `Float`.  All arithmetic performed
  by the embedded code stays far inside the `int64` range for the inputs
  considered here, so two's-complement wrap-around is not modelled.  Go
  integer division truncates toward zero and is modelled by `Int.tdiv`.
* The `encoding/xml` layer is modelled at the granularity the code depends
  on: a wire record is a structure of already-tokenised scalar fields, where
  a field decoded through the presence-`Boolean` adapter is kept as an
  `Option String` (`some body` exactly when the tag is present, carrying its
  textual content) and a field decoded through the `Duration` adapter is the
  integer the tag contains.  Absent plain tags leave the Go zero value,
  which is baked into the wire structure as the default-valued field.
* Go `map` values used by the mutators (`streamLookup`, `clientLookup`) are
  modelled as lists searched by key equality; `clientLookup` maps an id to
  the index of its first (and, by construction, unique) occurrence in the
  accumulated list, which is exactly a first-index search.
-/

namespace RtmpExporter

/-- `Client` from `rtmpstats/stats.go`: client-specific statistics.
`entriesCount` is the `xml:"-"` field counting merged raw records. -/
structure Client where
  id : String
  address : String
  uptime : Int
  flashVersion : String
  pageURL : String
  swfURL : String
  droppedFrames : Int
  avSync : Int
  timestamp : Int
  active : Bool
  publishing : Bool
  entriesCount : Int
deriving DecidableEq, Repr, Inhabited

/-- `Client.Add` from `rtmpstats/stats.go`: sums dropped frames and entry
counts, ors the booleans, keeps the larger uptime/timestamp, and copies every
other field from the receiver (the accumulator). -/
def Client.Add (c other : Client) : Client :=
  { id := c.id
    address := c.address
    uptime := if c.uptime < other.uptime then other.uptime else c.uptime
    flashVersion := c.flashVersion
    pageURL := c.pageURL
    swfURL := c.swfURL
    droppedFrames := c.droppedFrames + other.droppedFrames
    avSync := c.avSync
    timestamp := if c.timestamp < other.timestamp then other.timestamp else c.timestamp
    active := c.active || other.active
    publishing := c.publishing || other.publishing
    entriesCount := c.entriesCount + other.entriesCount }

/-- The zero value of Go's `rtmpstats.Client`, as produced by
`var publisher rtmpstats.Client` in `exporter.Collect`. -/
def zeroClient : Client :=
  { id := ""
    address := ""
    uptime := 0
    flashVersion := ""
    pageURL := ""
    swfURL := ""
    droppedFrames := 0
    avSync := 0
    timestamp := 0
    active := false
    publishing := false
    entriesCount := 0 }

/-- `Stream` from `rtmpstats/stats.go`: stream-specific statistics. -/
structure Stream where
  name : String
  uptime : Int
  bitrateIn : Int
  bitrateOut : Int
  bytesIn : Int
  bytesOut : Int
  bitrateVideo : Int
  bitrateAudio : Int
  numClients : Int
  publishing : Bool
  active : Bool
  videoWidth : Int
  videoHeight : Int
  videoFramerate : Int
  videoCodec : String
  videoProfile : String
  videoCompat : Int
  videoLevel : Float
  audioCodec : String
  audioProfile : String
  audioChannels : Int
  audioSampleRate : Int
  clients : List Client
deriving Inhabited

/-- `Application` from `rtmpstats/stats.go`. -/
structure Application where
  name : String
  streams : List Stream
deriving Inhabited

/-- `Stats` from `rtmpstats/stats.go`: the root of the model.  `built` is the
instant produced by the `Time` adapter (its textual parsing is not needed by
any claim and is abstracted to the parsed value). -/
structure Stats where
  nginxVersion : String
  nginxRTMPVersion : String
  compiler : String
  built : Int
  pid : Int
  uptime : Int
  accepted : Int
  bitrateIn : Int
  bitrateOut : Int
  bytesIn : Int
  bytesOut : Int
  applications : List Application
deriving Inhabited

/-! ## Scalar adapters (`Duration`, `Boolean`) and record decoding -/

/-- `Duration.UnmarshalXML`: the wire integer is interpreted as milliseconds,
`time.Millisecond * time.Duration(ms)` nanoseconds. -/
def durationUnmarshal (ms : Int) : Int := 1000000 * ms

/-- `Boolean.UnmarshalXML`: sets the value to `true` whenever it is invoked,
i.e. whenever the tag is present; the body is consumed (the Go code
unmarshals it into a throwaway target) and its content is ignored. -/
def booleanUnmarshal (_body : String) : Bool := true

/-- A field bound to the `Boolean` adapter: the Go zero value `false` when
the tag is absent, otherwise the adapter is invoked on the tag's body. -/
def decodeBoolField : Option String → Bool
  | none => false
  | some body => booleanUnmarshal body

/-- Wire form of one `<client>` record: scalar fields as tokenised by
`encoding/xml`, presence-boolean tags as `Option` bodies, duration tags as
the raw integers handed to the `Duration` adapter. -/
structure ClientWire where
  id : String := ""
  address : String := ""
  time : Int := 0
  flashver : String := ""
  pageurl : String := ""
  swfurl : String := ""
  dropped : Int := 0
  avsync : Int := 0
  timestamp : Int := 0
  active : Option String := none
  publishing : Option String := none
deriving DecidableEq, Repr

/-- `Client.UnmarshalXML`: plain fields are copied, `time`/`timestamp` go
through the `Duration` adapter, `active`/`publishing` through the `Boolean`
adapter, and `EntriesCount` is set to 1 (never read from the wire). -/
def decodeClient (w : ClientWire) : Client :=
  { id := w.id
    address := w.address
    uptime := durationUnmarshal w.time
    flashVersion := w.flashver
    pageURL := w.pageurl
    swfURL := w.swfurl
    droppedFrames := w.dropped
    avSync := w.avsync
    timestamp := durationUnmarshal w.timestamp
    active := decodeBoolField w.active
    publishing := decodeBoolField w.publishing
    entriesCount := 1 }

/-- Wire form of one `<stream>` record. -/
structure StreamWire where
  name : String := ""
  time : Int := 0
  bwIn : Int := 0
  bwOut : Int := 0
  bytesIn : Int := 0
  bytesOut : Int := 0
  bwVideo : Int := 0
  bwAudio : Int := 0
  nclients : Int := 0
  publishing : Option String := none
  active : Option String := none
  videoWidth : Int := 0
  videoHeight : Int := 0
  videoFramerate : Int := 0
  videoCodec : String := ""
  videoProfile : String := ""
  videoCompat : Int := 0
  videoLevel : Float := 0
  audioCodec : String := ""
  audioProfile : String := ""
  audioChannels : Int := 0
  audioSampleRate : Int := 0
  clients : List ClientWire := []

/-- `Stream.UnmarshalXML`: `time` goes through the `Duration` adapter,
`publishing`/`active` through the `Boolean` adapter, everything else decodes
directly; nested `<client>` records decode via `decodeClient`. -/
def decodeStream (w : StreamWire) : Stream :=
  { name := w.name
    uptime := durationUnmarshal w.time
    bitrateIn := w.bwIn
    bitrateOut := w.bwOut
    bytesIn := w.bytesIn
    bytesOut := w.bytesOut
    bitrateVideo := w.bwVideo
    bitrateAudio := w.bwAudio
    numClients := w.nclients
    publishing := decodeBoolField w.publishing
    active := decodeBoolField w.active
    videoWidth := w.videoWidth
    videoHeight := w.videoHeight
    videoFramerate := w.videoFramerate
    videoCodec := w.videoCodec
    videoProfile := w.videoProfile
    videoCompat := w.videoCompat
    videoLevel := w.videoLevel
    audioCodec := w.audioCodec
    audioProfile := w.audioProfile
    audioChannels := w.audioChannels
    audioSampleRate := w.audioSampleRate
    clients := w.clients.map decodeClient }

/-- Wire form of one `<application>` element. -/
structure ApplicationWire where
  name : String := ""
  streams : List StreamWire := []

/-- Applications decode field-by-field with nested streams. -/
def decodeApplication (w : ApplicationWire) : Application :=
  { name := w.name
    streams := w.streams.map decodeStream }

/-- Wire form of the root document.  `built` is the instant the `Time`
adapter parses out of the `<built>` tag; `uptime` is the raw `<uptime>`
integer handed to the `Duration` adapter. -/
structure StatsWire where
  nginxVersion : String := ""
  nginxRTMPVersion : String := ""
  compiler : String := ""
  built : Int := 0
  pid : Int := 0
  uptime : Int := 0
  naccepted : Int := 0
  bwIn : Int := 0
  bwOut : Int := 0
  bytesIn : Int := 0
  bytesOut : Int := 0
  applications : List ApplicationWire := []

/-- `Stats.UnmarshalXML`: after the embedded decode, the uptime read through
the `Duration` adapter is rescaled by
`time.Duration(stats.Uptime) / time.Millisecond * time.Second`
(Go division truncates toward zero: `Int.tdiv`). -/
def decodeStats (w : StatsWire) : Stats :=
  { nginxVersion := w.nginxVersion
    nginxRTMPVersion := w.nginxRTMPVersion
    compiler := w.compiler
    built := w.built
    pid := w.pid
    uptime := Int.tdiv (durationUnmarshal w.uptime) 1000000 * 1000000000
    accepted := w.naccepted
    bitrateIn := w.bwIn
    bitrateOut := w.bwOut
    bytesIn := w.bytesIn
    bytesOut := w.bytesOut
    applications := w.applications.map decodeApplication }

/-! ## `WithStreamMapper` (`rtmpstats/mutations.go`) -/

/-- The error message built by `fmt.Errorf` in `WithStreamMapper`. -/
def collisionMsg (name : String) : String :=
  "a stream with the name " ++ name ++ " already exists"

/-- The per-application loop body of `WithStreamMapper`: renames each stream
through `mapper`, tracking the set of produced names (`streamLookup`,
modelled as a list searched by equality) and failing on the first duplicate.
On success it returns the fully transformed stream list. -/
def transformStreams (mapper : String → String) :
    List Stream → List String → Except String (List Stream)
  | [], _ => .ok []
  | st :: rest, seen =>
      if mapper st.name ∈ seen then .error (collisionMsg (mapper st.name))
      else
        match transformStreams mapper rest (mapper st.name :: seen) with
        | .error e => .error e
        | .ok ts => .ok ({ st with name := mapper st.name } :: ts)

/-- A single stream renamed through the mapper
(`stream.Name = mapper(stream.Name)` on the loop's value copy). -/
def renameStream (mapper : String → String) (st : Stream) : Stream :=
  { st with name := mapper st.name }

/-- The multiset of names an application's streams receive from the mapper. -/
def mappedNames (mapper : String → String) (ss : List Stream) : List String :=
  ss.map (fun st => mapper st.name)

/-- One application step of `WithStreamMapper`: transform the stream list and,
on success, swap it into the application. -/
def appStep (mapper : String → String) (app : Application) :
    Except String Application :=
  match transformStreams mapper app.streams [] with
  | .error e => .error e
  | .ok ts => .ok { app with streams := ts }

/-- `appStep` with the failure case leaving the application untouched
(used to describe the committed prefix of a partially failed run). -/
def appStepD (mapper : String → String) (app : Application) : Application :=
  match appStep mapper app with
  | .error _ => app
  | .ok app' => app'

/-- The application loop of `WithStreamMapper`: each application is processed
in order; a failure stops the loop, leaving the failing application and all
later ones untouched while applications already processed keep their
transformed stream lists (the Go code returns mid-loop after having assigned
`s.Applications[i].Streams` for every earlier `i`). -/
def transformApps (mapper : String → String) :
    List Application → Option String × List Application
  | [] => (none, [])
  | app :: rest =>
      match appStep mapper app with
      | .error e => (some e, app :: rest)
      | .ok app' =>
          let r := transformApps mapper rest
          (r.1, app' :: r.2)

/-- `WithStreamMapper`: the mutator over the whole `Stats` value.  The
returned pair is (error, state of the model after the call) — Go mutates in
place, so the caller sees the partially committed state on failure. -/
def withStreamMapper (mapper : String → String) (s : Stats) :
    Option String × Stats :=
  let r := transformApps mapper s.applications
  (r.1, { s with applications := r.2 })

/-! ## `WithClientMapper` (`rtmpstats/mutations.go`) -/

/-- `client.ID = mapper(stream.Name, client.ID)` applied to one client. -/
def remapClient (mapper : String → String → String) (streamName : String)
    (c : Client) : Client :=
  { c with id := mapper streamName c.id }

/-- The `clientLookup` map: index of the first (unique) client in the
accumulated list carrying the given id. -/
def findClientIdx (targetId : String) : List Client → Option Nat
  | [] => none
  | a :: rest =>
      if a.id = targetId then some 0
      else (findClientIdx targetId rest).map (fun i => i + 1)

/-- In-place update of the entry at an index (`aggregated[duplicateIdx] = …`). -/
def listModify (f : Client → Client) : Nat → List Client → List Client
  | _, [] => []
  | 0, a :: rest => f a :: rest
  | n + 1, a :: rest => a :: listModify f n rest

/-- One iteration of the aggregation loop in `WithClientMapper`: append the
(already remapped) client if its id is new, otherwise fold it into the
existing entry via `Client.Add`. -/
def aggStep (agg : List Client) (c : Client) : List Client :=
  match findClientIdx c.id agg with
  | none => agg ++ [c]
  | some i => listModify (fun a => a.Add c) i agg

/-- The per-stream body of `WithClientMapper`: remap every client id, then
aggregate duplicates in encounter order. -/
def aggregateClients (mapper : String → String → String) (streamName : String)
    (clients : List Client) : List Client :=
  (clients.map (remapClient mapper streamName)).foldl aggStep []

/-- `WithClientMapper`: replaces every stream's client list with its
aggregated form; this mutator never fails. -/
def withClientMapper (mapper : String → String → String) (s : Stats) :
    Option String × Stats :=
  (none,
    { s with
      applications := s.applications.map (fun app =>
        { app with
          streams := app.streams.map (fun st =>
            { st with clients := aggregateClients mapper st.name st.clients }) }) })

/-! ## Publisher selection (`exporter.Collect`) -/

/-- The publisher-selection loop in `Exporter.Collect`: starting from the
zero-valued `publisher`, scan the stream's clients and stop at the first one
with `Publishing` set. -/
def selectPublisher : List Client → Client
  | [] => zeroClient
  | c :: rest => if c.publishing then c else selectPublisher rest

/-! ## Specification-side functions used to state the aggregation claims -/

/-- Reference description of the aggregation loop's output: the first client
of each id group folded (via `Client.Add`, in encounter order) with the rest
of its group, groups ordered by first occurrence. -/
def collect : List Client → List Client
  | [] => []
  | c :: rest =>
      ((rest.filter (fun b => b.id == c.id)).foldl Client.Add c)
        :: collect (rest.filter (fun b => !(b.id == c.id)))
termination_by l => l.length
decreasing_by
  simp only [List.length_cons]
  exact Nat.lt_succ_of_le (List.length_filter_le _ _)

/-- First occurrences of a list of identifiers, in order. -/
def dedupFirst : List String → List String
  | [] => []
  | x :: xs => x :: dedupFirst (xs.filter (fun y => !(y == x)))
termination_by l => l.length
decreasing_by
  simp only [List.length_cons]
  exact Nat.lt_succ_of_le (List.length_filter_le _ _)

/-! ## Concrete instances used to exhibit counterexamples and witnesses -/

/-- A stream with Go zero values everywhere (base for concrete examples). -/
def emptyStream : Stream :=
  { name := ""
    uptime := 0
    bitrateIn := 0
    bitrateOut := 0
    bytesIn := 0
    bytesOut := 0
    bitrateVideo := 0
    bitrateAudio := 0
    numClients := 0
    publishing := false
    active := false
    videoWidth := 0
    videoHeight := 0
    videoFramerate := 0
    videoCodec := ""
    videoProfile := ""
    videoCompat := 0
    videoLevel := 0
    audioCodec := ""
    audioProfile := ""
    audioChannels := 0
    audioSampleRate := 0
    clients := [] }

/-- An empty application (base for concrete examples). -/
def emptyApp : Application := { name := "", streams := [] }

/-- A `Stats` with zero scalar fields and the given applications. -/
def mkStats (apps : List Application) : Stats :=
  { nginxVersion := ""
    nginxRTMPVersion := ""
    compiler := ""
    built := 0
    pid := 0
    uptime := 0
    accepted := 0
    bitrateIn := 0
    bitrateOut := 0
    bytesIn := 0
    bytesOut := 0
    applications := apps }

/-- First client of the aggregation example (`sum_a` in the repo's test). -/
def exSumA : Client :=
  { id := "sum_a"
    address := "127.0.0.1"
    uptime := 60000000000
    flashVersion := "1"
    pageURL := "http://localhost/watch"
    swfURL := "https://swf"
    droppedFrames := 150
    avSync := -12
    timestamp := 60000000000
    active := false
    publishing := false
    entriesCount := 1 }

/-- Second client of the aggregation example (`other_a`). -/
def exOtherA : Client :=
  { id := "other_a"
    address := "1.1.1.1"
    uptime := 60000000000
    flashVersion := "2"
    pageURL := "http://other.localhost/watch"
    swfURL := "https://swf2"
    droppedFrames := 0
    avSync := 0
    timestamp := 60000000000
    active := false
    publishing := false
    entriesCount := 1 }

/-- Third client of the aggregation example (`sum_b`). -/
def exSumB : Client :=
  { id := "sum_b"
    address := "127.0.0.2"
    uptime := 1000000000
    flashVersion := "1.1"
    pageURL := "http://localhost/watch-also"
    swfURL := "https://swf/1"
    droppedFrames := 100
    avSync := -12
    timestamp := 1000000000
    active := true
    publishing := false
    entriesCount := 1 }

/-- The three example clients in wire order. -/
def exClients : List Client := [exSumA, exOtherA, exSumB]

/-- The example mapper collapsing `sum_a`/`sum_b` to `sum`. -/
def exMapper (_stream : String) (i : String) : String :=
  if i = "sum_a" then "sum" else if i = "sum_b" then "sum" else i

/-- The merged `sum` client expected from aggregating the example. -/
def exMerged : Client :=
  { id := "sum"
    address := "127.0.0.1"
    uptime := 60000000000
    flashVersion := "1"
    pageURL := "http://localhost/watch"
    swfURL := "https://swf"
    droppedFrames := 250
    avSync := -12
    timestamp := 60000000000
    active := true
    publishing := false
    entriesCount := 2 }

/-- A trivial `Stats` used only to instantiate theorems at a concrete input. -/
def exStats : Stats := mkStats []

/-- Root wire document whose server uptime field holds `93879500`. -/
def c1wire : StatsWire := { uptime := 93879500 }

/-- Two applications: the first has a single stream `x`, the second two
streams `u`, `v` — a constant mapper collides only in the second one. -/
def c3stats : Stats :=
  mkStats
    [ { name := "appX", streams := [{ emptyStream with name := "x" }] },
      { name := "appYZ",
        streams := [{ emptyStream with name := "u" },
                    { emptyStream with name := "v" }] } ]

/-- One application with two distinct stream names (collision example). -/
def c4stats : Stats :=
  mkStats
    [ { name := "app",
        streams := [{ emptyStream with name := "x" },
                    { emptyStream with name := "y" }] } ]

/-- A model that already carries a duplicated stream name inside one
application; the identity mapper trips the collision check on it. -/
def c7dupStats : Stats :=
  mkStats
    [ { name := "app",
        streams := [{ emptyStream with name := "a" },
                    { emptyStream with name := "a" }] } ]

/-- A model with distinct stream names per application. -/
def c7goodStats : Stats :=
  mkStats
    [ { name := "app",
        streams := [{ emptyStream with name := "a" },
                    { emptyStream with name := "b" }] } ]

/-- Clients A (not publishing), B and C (both publishing). -/
def pubClients : List Client :=
  [ { zeroClient with id := "A" },
    { zeroClient with id := "B", publishing := true },
    { zeroClient with id := "C", publishing := true } ]

/-- A stream reporting `nclients = 2` with two clients that a constant
mapper merges into one. -/
def exStream10 : Stream :=
  { emptyStream with
    name := "s"
    numClients := 2
    clients := [{ zeroClient with id := "a", entriesCount := 1 },
                { zeroClient with id := "b", entriesCount := 1 }] }

/-- Stats wrapping `exStream10`. -/
def exStats10 : Stats := mkStats [{ name := "app", streams := [exStream10] }]

/-- Constant client mapper used with `exStats10`. -/
def exMapper10 (_stream : String) (_i : String) : String := "x"

/-- The first stream of the first application (with zero-valued defaults). -/
def statStream0 (s : Stats) : Stream :=
  ((s.applications.headD emptyApp).streams.headD emptyStream)

/-- Wire form of one client (for the fresh-decode witness). -/
def exClientWire : ClientWire :=
  { id := "42", time := 60000, active := some "" }

/-- Wire form of one stream holding `exClientWire`. -/
def exStreamWire : StreamWire :=
  { name := "streamName"
    time := 500003
    nclients := 1
    publishing := some ""
    active := some ""
    clients := [exClientWire] }

/-- Wire form of one application holding `exStreamWire`. -/
def exAppWire : ApplicationWire :=
  { name := "live", streams := [exStreamWire] }

/-- Wire document with one application, one stream, one client (for the
fresh-decode witnesses). -/
def exWire : StatsWire :=
  { uptime := 93879, applications := [exAppWire] }

/-- Number of occurrences of a name in a list of names. -/
def countName (n : String) : List String → Nat
  | [] => 0
  | x :: xs => (if x = n then 1 else 0) + countName n xs

/-- Pointwise equality of every `Stream` field except the client list. -/
def Stream.frameEq (a b : Stream) : Prop :=
  a.name = b.name ∧ a.uptime = b.uptime ∧ a.bitrateIn = b.bitrateIn ∧
  a.bitrateOut = b.bitrateOut ∧ a.bytesIn = b.bytesIn ∧
  a.bytesOut = b.bytesOut ∧ a.bitrateVideo = b.bitrateVideo ∧
  a.bitrateAudio = b.bitrateAudio ∧ a.numClients = b.numClients ∧
  a.publishing = b.publishing ∧ a.active = b.active ∧
  a.videoWidth = b.videoWidth ∧ a.videoHeight = b.videoHeight ∧
  a.videoFramerate = b.videoFramerate ∧ a.videoCodec = b.videoCodec ∧
  a.videoProfile = b.videoProfile ∧ a.videoCompat = b.videoCompat ∧
  a.videoLevel = b.videoLevel ∧ a.audioCodec = b.audioCodec ∧
  a.audioProfile = b.audioProfile ∧ a.audioChannels = b.audioChannels ∧
  a.audioSampleRate = b.audioSampleRate

/-! ## Basic facts about the adapters -/

theorem decodeBoolField_eq_isSome (o : Option String) :
    decodeBoolField o = o.isSome := by
  cases o <;> rfl

/-! ## Stream-mapper machinery lemmas -/

theorem mappedNames_cons (m : String → String) (st : Stream) (rest : List Stream) :
    mappedNames m (st :: rest) = m st.name :: mappedNames m rest := rfl

theorem countName_cons (n x : String) (xs : List String) :
    countName n (x :: xs) = (if x = n then 1 else 0) + countName n xs := rfl

theorem transformStreams_ok_shape (m : String → String) :
    ∀ (l : List Stream) (seen : List String) (ts : List Stream),
      transformStreams m l seen = .ok ts → ts = l.map (renameStream m) := by
  intro l
  induction l with
  | nil =>
      intro seen ts h
      simp only [transformStreams] at h
      injection h with h
      exact h.symm
  | cons st rest ih =>
      intro seen ts h
      simp only [transformStreams] at h
      by_cases hn : m st.name ∈ seen
      · rw [if_pos hn] at h
        exact Except.noConfusion h
      · rw [if_neg hn] at h
        cases htr : transformStreams m rest (m st.name :: seen) with
        | error e =>
            rw [htr] at h
            exact Except.noConfusion h
        | ok ts' =>
            rw [htr] at h
            injection h with h
            rw [← h, ih _ _ htr]
            rfl

theorem transformStreams_err_exists (m : String → String) :
    ∀ (l : List Stream) (seen : List String) (n : String),
      (2 ≤ countName n (mappedNames m l) ∨
        (n ∈ seen ∧ 1 ≤ countName n (mappedNames m l))) →
      ∃ e, transformStreams m l seen = .error e := by
  intro l
  induction l with
  | nil =>
      intro seen n h
      rcases h with h | ⟨-, h⟩ <;> simp [mappedNames, countName] at h
  | cons st rest ih =>
      intro seen n h
      by_cases hn : m st.name ∈ seen
      · exact ⟨collisionMsg (m st.name), by simp [transformStreams, hn]⟩
      · have hcons : countName n (mappedNames m (st :: rest))
            = (if m st.name = n then 1 else 0) + countName n (mappedNames m rest) := rfl
        have hrec : ∃ e, transformStreams m rest (m st.name :: seen) = .error e := by
          by_cases he : m st.name = n
          · rcases h with h | ⟨hs, -⟩
            · refine ih (m st.name :: seen) n (Or.inr ⟨?_, ?_⟩)
              · exact he ▸ List.mem_cons_self _ _
              · rw [hcons, if_pos he] at h
                omega
            · exact absurd (he ▸ hs) hn
          · refine ih (m st.name :: seen) n ?_
            rw [hcons, if_neg he] at h
            rcases h with h | ⟨hs, h1⟩
            · exact Or.inl (by omega)
            · exact Or.inr ⟨List.mem_cons_of_mem _ hs, by omega⟩
        obtain ⟨e, he⟩ := hrec
        exact ⟨e, by simp [transformStreams, hn, he]⟩

theorem transformStreams_err_shape (m : String → String) :
    ∀ (l : List Stream) (seen : List String) (e : String),
      transformStreams m l seen = .error e →
      ∃ n, e = collisionMsg n ∧
        (2 ≤ countName n (mappedNames m l) ∨
          (n ∈ seen ∧ 1 ≤ countName n (mappedNames m l))) := by
  intro l
  induction l with
  | nil =>
      intro seen e h
      simp only [transformStreams] at h
      exact Except.noConfusion h
  | cons st rest ih =>
      intro seen e h
      simp only [transformStreams] at h
      by_cases hn : m st.name ∈ seen
      · rw [if_pos hn] at h
        injection h with h
        refine ⟨m st.name, h.symm, Or.inr ⟨hn, ?_⟩⟩
        have hcons : countName (m st.name) (mappedNames m (st :: rest))
            = 1 + countName (m st.name) (mappedNames m rest) := by
          simp [mappedNames, countName]
        omega
      · rw [if_neg hn] at h
        cases htr : transformStreams m rest (m st.name :: seen) with
        | ok ts =>
            rw [htr] at h
            exact Except.noConfusion h
        | error e0 =>
            rw [htr] at h
            have he0 : e0 = e := by injection h
            subst he0
            obtain ⟨n, hmsg, hcase⟩ := ih _ _ htr
            have hcons : countName n (mappedNames m (st :: rest))
                = (if m st.name = n then 1 else 0) + countName n (mappedNames m rest) := rfl
            refine ⟨n, hmsg, ?_⟩
            rcases hcase with h2 | ⟨hs, h1⟩
            · refine Or.inl ?_
              by_cases he : m st.name = n
              · rw [hcons, if_pos he]; omega
              · rw [hcons, if_neg he]; omega
            · rcases List.mem_cons.mp hs with rfl | hseen
              · refine Or.inl ?_
                rw [hcons, if_pos rfl]
                omega
              · refine Or.inr ⟨hseen, ?_⟩
                by_cases he : m st.name = n
                · rw [hcons, if_pos he]; omega
                · rw [hcons, if_neg he]; omega

theorem transformStreams_id (l : List Stream) :
    ∀ (seen : List String),
      (l.map (fun st => st.name)).Nodup →
      (∀ st ∈ l, st.name ∉ seen) →
      transformStreams (fun x => x) l seen = .ok l := by
  induction l with
  | nil => intro seen _ _; rfl
  | cons st rest ih =>
      intro seen hnd hns
      have hn : st.name ∉ seen := hns st (List.mem_cons_self _ _)
      rw [List.map_cons] at hnd
      have hnd2 := List.nodup_cons.mp hnd
      have hrec : transformStreams (fun x => x) rest (st.name :: seen) = .ok rest := by
        refine ih (st.name :: seen) hnd2.2 ?_
        intro x hx
        rw [List.mem_cons]
        push_neg
        refine ⟨?_, hns x (List.mem_cons_of_mem _ hx)⟩
        intro hname
        exact hnd2.1 (hname ▸ List.mem_map_of_mem (fun st => st.name) hx)
      show transformStreams (fun x => x) (st :: rest) seen = .ok (st :: rest)
      simp only [transformStreams]
      rw [if_neg hn, hrec]

theorem takeMapDrop_length {α : Type} (f : α → α) :
    ∀ (l : List α) (k : Nat), k ≤ l.length →
      ((l.take k).map f ++ l.drop k).length = l.length := by
  intro l
  induction l with
  | nil =>
      intro k hk
      have hk0 : k = 0 := Nat.le_zero.mp hk
      subst hk0
      rfl
  | cons a rest ih =>
      intro k hk
      cases k with
      | zero => rfl
      | succ n =>
          have := ih n (Nat.le_of_succ_le_succ hk)
          simpa using this

theorem takeMapDrop_get {α : Type} (f : α → α) :
    ∀ (l : List α) (k j : Nat), k ≤ l.length → ∀ hj : j < l.length,
      k ≤ j →
      ∃ hj2 : j < ((l.take k).map f ++ l.drop k).length,
        ((l.take k).map f ++ l.drop k).get ⟨j, hj2⟩ = l.get ⟨j, hj⟩ := by
  intro l
  induction l with
  | nil =>
      intro k j hk hj
      exact absurd hj (Nat.not_lt_zero j)
  | cons a rest ih =>
      intro k j hk hj hkj
      cases k with
      | zero => exact ⟨hj, rfl⟩
      | succ n =>
          cases j with
          | zero => exact absurd hkj (Nat.not_succ_le_zero n)
          | succ i =>
              obtain ⟨hj2, hget⟩ := ih n i (Nat.le_of_succ_le_succ hk)
                (Nat.lt_of_succ_lt_succ hj) (Nat.le_of_succ_le_succ hkj)
              exact ⟨Nat.succ_lt_succ hj2, hget⟩

theorem appStep_ok_shape (m : String → String) (app : Application)
    (a' : Application) (h : appStep m app = .ok a') :
    a' = { app with streams := app.streams.map (renameStream m) } := by
  unfold appStep at h
  cases htr : transformStreams m app.streams [] with
  | error e =>
      rw [htr] at h
      exact Except.noConfusion h
  | ok ts =>
      rw [htr] at h
      injection h with h
      rw [← h, transformStreams_ok_shape m app.streams [] ts htr]

theorem appStepD_of_ok (m : String → String) (app a' : Application)
    (h : appStep m app = .ok a') : appStepD m app = a' := by
  unfold appStepD
  rw [h]

theorem transformApps_cons_err (m : String → String) (app : Application)
    (rest : List Application) (e : String) (h : appStep m app = .error e) :
    transformApps m (app :: rest) = (some e, app :: rest) := by
  simp [transformApps, h]

theorem transformApps_cons_ok (m : String → String) (app : Application)
    (rest : List Application) (a' : Application) (h : appStep m app = .ok a') :
    transformApps m (app :: rest)
      = ((transformApps m rest).1, a' :: (transformApps m rest).2) := by
  simp [transformApps, h]

theorem transformApps_fst_none (m : String → String) :
    ∀ (apps : List Application), (transformApps m apps).1 = none →
      ∀ i, ∀ hi : i < apps.length,
        ∃ a', appStep m (apps.get ⟨i, hi⟩) = .ok a' := by
  intro apps
  induction apps with
  | nil =>
      intro _ i hi
      exact absurd hi (Nat.not_lt_zero i)
  | cons app rest ih =>
      intro h i hi
      cases happ : appStep m app with
      | error e =>
          rw [transformApps_cons_err m app rest e happ] at h
          exact Option.noConfusion h
      | ok a' =>
          rw [transformApps_cons_ok m app rest a' happ] at h
          cases i with
          | zero => exact ⟨a', happ⟩
          | succ n => exact ih h n (Nat.lt_of_succ_lt_succ hi)

theorem transformApps_err (m : String → String) :
    ∀ (apps : List Application) (e : String),
      (transformApps m apps).1 = some e →
      ∃ k, ∃ hk : k < apps.length,
        appStep m (apps.get ⟨k, hk⟩) = .error e ∧
        (∀ i, ∀ hi : i < k,
          ∃ a', appStep m (apps.get ⟨i, Nat.lt_trans hi hk⟩) = .ok a') ∧
        (transformApps m apps).2
          = (apps.take k).map (appStepD m) ++ apps.drop k := by
  intro apps
  induction apps with
  | nil =>
      intro e h
      exact Option.noConfusion h
  | cons app rest ih =>
      intro e h
      cases happ : appStep m app with
      | error e0 =>
          rw [transformApps_cons_err m app rest e0 happ] at h
          have he : e0 = e := by injection h
          subst he
          refine ⟨0, Nat.succ_pos _, happ, ?_, ?_⟩
          · intro i hi
            exact absurd hi (Nat.not_lt_zero i)
          · rw [transformApps_cons_err m app rest e0 happ]
            rfl
      | ok a' =>
          rw [transformApps_cons_ok m app rest a' happ] at h
          obtain ⟨k, hk, herr, hpre, hsnd⟩ := ih e h
          refine ⟨k + 1, Nat.succ_lt_succ hk, herr, ?_, ?_⟩
          · intro i hi
            cases i with
            | zero => exact ⟨a', happ⟩
            | succ n => exact hpre n (Nat.lt_of_succ_lt_succ hi)
          · rw [transformApps_cons_ok m app rest a' happ]
            show a' :: (transformApps m rest).2
              = ((app :: rest).take (k + 1)).map (appStepD m)
                  ++ (app :: rest).drop (k + 1)
            rw [hsnd, List.take_succ_cons, List.drop_succ_cons, List.map_cons,
              appStepD_of_ok m app a' happ]
            rfl

theorem get_congr {α : Type} {l₁ l₂ : List α} (h : l₁ = l₂) (j : Nat)
    (h₁ : j < l₁.length) (h₂ : j < l₂.length) :
    l₁.get ⟨j, h₁⟩ = l₂.get ⟨j, h₂⟩ := by
  subst h
  rfl

theorem countName_mapped_const (c n : String) :
    ∀ ss : List Stream,
      countName n (mappedNames (fun _ => c) ss)
        = if c = n then ss.length else 0 := by
  intro ss
  induction ss with
  | nil => by_cases hc : c = n <;> simp [mappedNames, countName, hc]
  | cons st rest ih =>
      by_cases hc : c = n <;>
        simp [mappedNames, countName, hc] at ih ⊢ <;> omega

theorem wsm_collision_general (s : Stats) (m : String → String) (a : Nat)
    (ha : a < s.applications.length)
    (hdup : ∃ n, 2 ≤ countName n
      (mappedNames m (s.applications.get ⟨a, ha⟩).streams)) :
    ∃ n k, ∃ hk : k < s.applications.length,
      (withStreamMapper m s).1 = some (collisionMsg n) ∧
      2 ≤ countName n (mappedNames m (s.applications.get ⟨k, hk⟩).streams) ∧
      ∃ ha2 : a < (withStreamMapper m s).2.applications.length,
        ((withStreamMapper m s).2.applications.get ⟨a, ha2⟩).streams
          = (s.applications.get ⟨a, ha⟩).streams := by
  obtain ⟨n, hn⟩ := hdup
  obtain ⟨e, he⟩ := transformStreams_err_exists m
    (s.applications.get ⟨a, ha⟩).streams [] n (Or.inl hn)
  have happerr : appStep m (s.applications.get ⟨a, ha⟩) = .error e := by
    unfold appStep
    rw [he]
  cases hfst : (transformApps m s.applications).1 with
  | none =>
      obtain ⟨a'', hok⟩ := transformApps_fst_none m s.applications hfst a ha
      rw [happerr] at hok
      exact Except.noConfusion hok
  | some e1 =>
      obtain ⟨k, hk, herr, hpre, hsnd⟩ := transformApps_err m s.applications e1 hfst
      have hts : transformStreams m (s.applications.get ⟨k, hk⟩).streams []
          = .error e1 := by
        unfold appStep at herr
        cases htr2 : transformStreams m (s.applications.get ⟨k, hk⟩).streams [] with
        | error e2 =>
            rw [htr2] at herr
            have he2 : e2 = e1 := by injection herr
            rw [he2] at htr2 ⊢
        | ok ts =>
            rw [htr2] at herr
            exact Except.noConfusion herr
      obtain ⟨n1, hmsg, hcase⟩ := transformStreams_err_shape m _ [] e1 hts
      have hcount : 2 ≤ countName n1
          (mappedNames m (s.applications.get ⟨k, hk⟩).streams) := by
        rcases hcase with h2 | ⟨hmem, -⟩
        · exact h2
        · exact absurd hmem (List.not_mem_nil n1)
      have hka : k ≤ a := by
        by_contra hlt
        push_neg at hlt
        obtain ⟨a'', hok⟩ := hpre a hlt
        rw [happerr] at hok
        exact Except.noConfusion hok
      have hlt2 : a < (withStreamMapper m s).2.applications.length := by
        show a < (transformApps m s.applications).2.length
        rw [hsnd, takeMapDrop_length (appStepD m) s.applications k (Nat.le_of_lt hk)]
        exact ha
      obtain ⟨hj2, hget⟩ := takeMapDrop_get (appStepD m) s.applications k a
        (Nat.le_of_lt hk) ha hka
      refine ⟨n1, k, hk, ?_, hcount, hlt2, ?_⟩
      · show (transformApps m s.applications).1 = some (collisionMsg n1)
        rw [hfst, hmsg]
      · exact congrArg Application.streams ((get_congr hsnd a hlt2 hj2).trans hget)

/-! ## C3: failure leaves the failing scope unmodified (per application) -/

/-- **C3** (counterexample): with two applications and a constant mapper the
collision arises in the second application, yet the first application's
stream list has been renamed by the failed call — the model IS partially
modified across applications, contradicting the claim as stated. -/
theorem streamMapper_atomicity_counterexample :
    (withStreamMapper (fun _ => "z") c3stats).1 ≠ none ∧
    (withStreamMapper (fun _ => "z") c3stats).2.applications.map
        (fun ap => ap.streams.map (fun st => st.name))
      ≠ c3stats.applications.map
        (fun ap => ap.streams.map (fun st => st.name)) := by
  decide

/-- **C3** (amended): when the mutator returned by `WithStreamMapper` fails,
no application is left with a partially transformed stream list, but the
atomicity scope is per application, not the whole model: the failing
application (index `k`) and every application after it keep their stream
lists exactly as before the call, while every application before `k` holds
its fully transformed stream list (those commits are not rolled back). -/
theorem streamMapper_error_scope (mapper : String → String) (s : Stats)
    (e : String) (h : (withStreamMapper mapper s).1 = some e) :
    ∃ k, ∃ hk : k < s.applications.length,
      appStep mapper (s.applications.get ⟨k, hk⟩) = .error e ∧
      (∀ i, ∀ hi : i < k,
        appStep mapper (s.applications.get ⟨i, Nat.lt_trans hi hk⟩)
          = .ok { s.applications.get ⟨i, Nat.lt_trans hi hk⟩ with
                  streams :=
                    (s.applications.get ⟨i, Nat.lt_trans hi hk⟩).streams.map
                      (renameStream mapper) }) ∧
      (withStreamMapper mapper s).2.applications
        = (s.applications.take k).map (appStepD mapper)
            ++ s.applications.drop k ∧
      (∀ j, ∀ hj : j < s.applications.length, k ≤ j →
        ∃ hj2 : j < (withStreamMapper mapper s).2.applications.length,
          (withStreamMapper mapper s).2.applications.get ⟨j, hj2⟩
            = s.applications.get ⟨j, hj⟩) := by
  have h1 : (transformApps mapper s.applications).1 = some e := h
  obtain ⟨k, hk, herr, hpre, hsnd⟩ := transformApps_err mapper s.applications e h1
  refine ⟨k, hk, herr, ?_, hsnd, ?_⟩
  · intro i hi
    obtain ⟨a', ha'⟩ := hpre i hi
    rw [ha', appStep_ok_shape mapper _ a' ha']
  · intro j hj hkj
    have hlt : j < (withStreamMapper mapper s).2.applications.length := by
      show j < (transformApps mapper s.applications).2.length
      rw [hsnd, takeMapDrop_length (appStepD mapper) s.applications k
        (Nat.le_of_lt hk)]
      exact hj
    obtain ⟨hj2, hget⟩ := takeMapDrop_get (appStepD mapper) s.applications k j
      (Nat.le_of_lt hk) hj hkj
    exact ⟨hlt, (get_congr hsnd j hlt hj2).trans hget⟩

/-- Witness for **C3** at the concrete two-application model `c3stats` and
the constant mapper. -/
theorem streamMapper_error_scope_witness :
    (withStreamMapper (fun _ => "z") c3stats).1 = some (collisionMsg "z") ∧
    (∃ k, ∃ hk : k < c3stats.applications.length,
      appStep (fun _ => "z") (c3stats.applications.get ⟨k, hk⟩)
        = .error (collisionMsg "z") ∧
      (∀ i, ∀ hi : i < k,
        appStep (fun _ => "z") (c3stats.applications.get ⟨i, Nat.lt_trans hi hk⟩)
          = .ok { c3stats.applications.get ⟨i, Nat.lt_trans hi hk⟩ with
                  streams :=
                    (c3stats.applications.get ⟨i, Nat.lt_trans hi hk⟩).streams.map
                      (renameStream (fun _ => "z")) }) ∧
      (withStreamMapper (fun _ => "z") c3stats).2.applications
        = (c3stats.applications.take k).map (appStepD (fun _ => "z"))
            ++ c3stats.applications.drop k ∧
      (∀ j, ∀ hj : j < c3stats.applications.length, k ≤ j →
        ∃ hj2 : j < (withStreamMapper (fun _ => "z") c3stats).2.applications.length,
          (withStreamMapper (fun _ => "z") c3stats).2.applications.get ⟨j, hj2⟩
            = c3stats.applications.get ⟨j, hj⟩)) :=
  ⟨by decide,
   streamMapper_error_scope (fun _ => "z") c3stats (collisionMsg "z") (by decide)⟩

/-! ## C4: collisions inside one application -/

/-- **C4**: if two streams of the same application receive the same new name
from the mapper (some name occurs at least twice among the mapped names),
`WithStreamMapper` fails with a collision error naming a name that is indeed
duplicated within the (first failing) application, and the quantified
application's stream list is left unmodified by the failed call; with a
constant mapper over an application with at least two streams the error
names exactly that constant. -/
theorem streamMapper_collision (s : Stats) (m : String → String) (a : Nat)
    (ha : a < s.applications.length) :
    ((∃ n, 2 ≤ countName n
        (mappedNames m (s.applications.get ⟨a, ha⟩).streams)) →
      ∃ n k, ∃ hk : k < s.applications.length,
        (withStreamMapper m s).1 = some (collisionMsg n) ∧
        2 ≤ countName n (mappedNames m (s.applications.get ⟨k, hk⟩).streams) ∧
        ∃ ha2 : a < (withStreamMapper m s).2.applications.length,
          ((withStreamMapper m s).2.applications.get ⟨a, ha2⟩).streams
            = (s.applications.get ⟨a, ha⟩).streams) ∧
    (∀ c, 2 ≤ (s.applications.get ⟨a, ha⟩).streams.length →
      (withStreamMapper (fun _ => c) s).1 = some (collisionMsg c) ∧
      ∃ ha2 : a < (withStreamMapper (fun _ => c) s).2.applications.length,
        ((withStreamMapper (fun _ => c) s).2.applications.get ⟨a, ha2⟩).streams
          = (s.applications.get ⟨a, ha⟩).streams) := by
  constructor
  · exact wsm_collision_general s m a ha
  · intro c hlen
    have hdup : ∃ n, 2 ≤ countName n
        (mappedNames (fun _ => c) (s.applications.get ⟨a, ha⟩).streams) := by
      refine ⟨c, ?_⟩
      rw [countName_mapped_const c c _, if_pos rfl]
      exact hlen
    obtain ⟨n, k, hk, hfst, hcnt, ha2, hstr⟩ :=
      wsm_collision_general s (fun _ => c) a ha hdup
    have hnc : n = c := by
      rw [countName_mapped_const c n _] at hcnt
      by_cases hc : c = n
      · exact hc.symm
      · rw [if_neg hc] at hcnt
        omega
    subst hnc
    exact ⟨hfst, ha2, hstr⟩

/-- Witness for **C4**: the one-application model `c4stats` (streams `x`,
`y`) with the constant mapper to `dup`. -/
theorem streamMapper_collision_witness :
    (0 < c4stats.applications.length ∧
     2 ≤ (c4stats.applications.get ⟨0, Nat.one_pos⟩).streams.length) ∧
    ((withStreamMapper (fun _ => "dup") c4stats).1 = some (collisionMsg "dup") ∧
     ∃ ha2 : 0 < (withStreamMapper (fun _ => "dup") c4stats).2.applications.length,
       ((withStreamMapper (fun _ => "dup") c4stats).2.applications.get
           ⟨0, ha2⟩).streams
         = (c4stats.applications.get ⟨0, Nat.one_pos⟩).streams) :=
  ⟨⟨Nat.one_pos, by decide⟩,
   (streamMapper_collision c4stats (fun x => x) 0 Nat.one_pos).2 "dup" (by decide)⟩

/-! ## C7: identity stream mapper -/

/-- **C7** (counterexample): on a model that already contains two streams
with the same name inside one application, the identity mapper makes
`WithStreamMapper` fail — the claim's "returns no error for every Stats
value" is false. -/
theorem identity_mapper_counterexample :
    (withStreamMapper (fun x => x) c7dupStats).1 ≠ none := by
  decide

/-- **C7** (amended): on every `Stats` whose applications each carry
pairwise-distinct stream names (which holds for every model the collision
check has not already rejected), applying `WithStreamMapper` with the
identity function returns no error and leaves the model completely
unchanged. -/
theorem identity_mapper_noop (s : Stats)
    (h : ∀ app ∈ s.applications, (app.streams.map (fun st => st.name)).Nodup) :
    withStreamMapper (fun x => x) s = (none, s) := by
  have htr : ∀ apps : List Application,
      (∀ app ∈ apps, (app.streams.map (fun st => st.name)).Nodup) →
      transformApps (fun x => x) apps = (none, apps) := by
    intro apps
    induction apps with
    | nil => intro _; rfl
    | cons app rest ih =>
        intro hh
        have happ : appStep (fun x => x) app = .ok app := by
          unfold appStep
          rw [transformStreams_id app.streams [] (hh app (List.mem_cons_self _ _))
            (fun st _ => List.not_mem_nil st.name)]
        rw [transformApps_cons_ok (fun x => x) app rest app happ,
          ih (fun x hx => hh x (List.mem_cons_of_mem _ hx))]
  have h2 := htr s.applications h
  show ((transformApps (fun x => x) s.applications).1,
    { s with applications := (transformApps (fun x => x) s.applications).2 })
      = (none, s)
  rw [h2]

/-- Witness for **C7** at a model with distinct stream names. -/
theorem identity_mapper_noop_witness :
    (∀ app ∈ c7goodStats.applications,
      (app.streams.map (fun st => st.name)).Nodup) ∧
    withStreamMapper (fun x => x) c7goodStats = (none, c7goodStats) :=
  ⟨by decide, identity_mapper_noop c7goodStats (by decide)⟩

/-! ## Client-aggregation machinery lemmas -/

theorem Add_id (a c : Client) : (Client.Add a c).id = a.id := rfl

theorem findClientIdx_cons (t : String) (a : Client) (rest : List Client) :
    findClientIdx t (a :: rest)
      = if a.id = t then some 0
        else (findClientIdx t rest).map (fun i => i + 1) := rfl

theorem aggStep_cons (a : Client) (agg : List Client) (c : Client) :
    aggStep (a :: agg) c
      = if a.id = c.id then Client.Add a c :: agg else a :: aggStep agg c := by
  unfold aggStep
  rw [findClientIdx_cons]
  by_cases h : a.id = c.id
  · rw [if_pos h, if_pos h]
    rfl
  · rw [if_neg h, if_neg h]
    cases hf : findClientIdx c.id agg with
    | none => rfl
    | some i => rfl

theorem filterC_pos {α : Type} (p : α → Bool) (c : α) (rest : List α)
    (h : p c = true) : List.filter p (c :: rest) = c :: List.filter p rest := by
  rw [List.filter_cons, h]
  rw [if_pos rfl]

theorem filterC_neg {α : Type} (p : α → Bool) (c : α) (rest : List α)
    (h : p c = false) : List.filter p (c :: rest) = List.filter p rest := by
  rw [List.filter_cons, h]
  rw [if_neg (by simp)]

theorem foldl_aggStep_cons :
    ∀ (l : List Client) (a : Client) (agg : List Client),
      l.foldl aggStep (a :: agg)
        = ((l.filter (fun b => b.id == a.id)).foldl Client.Add a)
            :: (l.filter (fun b => !(b.id == a.id))).foldl aggStep agg := by
  intro l
  induction l with
  | nil => intro a agg; rfl
  | cons c rest ih =>
      intro a agg
      by_cases h : a.id = c.id
      · have hfe : (c.id == a.id) = true := by simp [h]
        have hstep : aggStep (a :: agg) c = Client.Add a c :: agg := by
          rw [aggStep_cons, if_pos h]
        rw [List.foldl_cons, hstep, ih (Client.Add a c) agg,
          filterC_pos (fun b => b.id == a.id) c rest hfe, List.foldl_cons,
          filterC_neg (fun b => !(b.id == a.id)) c rest (by simp [hfe])]
        simp only [Add_id]
      · have hfe : (c.id == a.id) = false := by
          simp only [beq_eq_false_iff_ne]
          exact fun hh => h hh.symm
        have hstep : aggStep (a :: agg) c = a :: aggStep agg c := by
          rw [aggStep_cons, if_neg h]
        rw [List.foldl_cons, hstep, ih a (aggStep agg c),
          filterC_neg (fun b => b.id == a.id) c rest hfe,
          filterC_pos (fun b => !(b.id == a.id)) c rest (by simp [hfe]),
          List.foldl_cons]

theorem collect_cons (c : Client) (rest : List Client) :
    collect (c :: rest)
      = ((rest.filter (fun b => b.id == c.id)).foldl Client.Add c)
          :: collect (rest.filter (fun b => !(b.id == c.id))) := by
  rw [collect]

theorem dedupFirst_cons (x : String) (xs : List String) :
    dedupFirst (x :: xs) = x :: dedupFirst (xs.filter (fun y => !(y == x))) := by
  rw [dedupFirst]

theorem foldl_aggStep_eq_collect : ∀ l : List Client, l.foldl aggStep [] = collect l := by
  intro l
  induction l using collect.induct with
  | case1 =>
      rw [collect]
      rfl
  | case2 c rest ih =>
      show rest.foldl aggStep (aggStep [] c) = collect (c :: rest)
      rw [show aggStep [] c = [c] from rfl, foldl_aggStep_cons rest c [],
        collect_cons, ih]

theorem foldlAdd_id : ∀ (tl : List Client) (hd : Client),
    (tl.foldl Client.Add hd).id = hd.id := by
  intro tl
  induction tl with
  | nil => intro hd; rfl
  | cons b tl ih => intro hd; exact ih (Client.Add hd b)

theorem foldlAdd_address : ∀ (tl : List Client) (hd : Client),
    (tl.foldl Client.Add hd).address = hd.address := by
  intro tl
  induction tl with
  | nil => intro hd; rfl
  | cons b tl ih => intro hd; exact ih (Client.Add hd b)

theorem foldlAdd_flashVersion : ∀ (tl : List Client) (hd : Client),
    (tl.foldl Client.Add hd).flashVersion = hd.flashVersion := by
  intro tl
  induction tl with
  | nil => intro hd; rfl
  | cons b tl ih => intro hd; exact ih (Client.Add hd b)

theorem foldlAdd_pageURL : ∀ (tl : List Client) (hd : Client),
    (tl.foldl Client.Add hd).pageURL = hd.pageURL := by
  intro tl
  induction tl with
  | nil => intro hd; rfl
  | cons b tl ih => intro hd; exact ih (Client.Add hd b)

theorem foldlAdd_swfURL : ∀ (tl : List Client) (hd : Client),
    (tl.foldl Client.Add hd).swfURL = hd.swfURL := by
  intro tl
  induction tl with
  | nil => intro hd; rfl
  | cons b tl ih => intro hd; exact ih (Client.Add hd b)

theorem foldlAdd_avSync : ∀ (tl : List Client) (hd : Client),
    (tl.foldl Client.Add hd).avSync = hd.avSync := by
  intro tl
  induction tl with
  | nil => intro hd; rfl
  | cons b tl ih => intro hd; exact ih (Client.Add hd b)

theorem foldlAdd_droppedFrames : ∀ (tl : List Client) (hd : Client),
    (tl.foldl Client.Add hd).droppedFrames
      = hd.droppedFrames + (tl.map (fun b => b.droppedFrames)).sum := by
  intro tl
  induction tl with
  | nil => intro hd; simp
  | cons b tl ih =>
      intro hd
      rw [List.foldl_cons, ih (Client.Add hd b), List.map_cons, List.sum_cons]
      have hAdd : (Client.Add hd b).droppedFrames
          = hd.droppedFrames + b.droppedFrames := rfl
      rw [hAdd]
      omega

theorem foldlAdd_entriesCount : ∀ (tl : List Client) (hd : Client),
    (tl.foldl Client.Add hd).entriesCount
      = hd.entriesCount + (tl.map (fun b => b.entriesCount)).sum := by
  intro tl
  induction tl with
  | nil => intro hd; simp
  | cons b tl ih =>
      intro hd
      rw [List.foldl_cons, ih (Client.Add hd b), List.map_cons, List.sum_cons]
      have hAdd : (Client.Add hd b).entriesCount
          = hd.entriesCount + b.entriesCount := rfl
      rw [hAdd]
      omega

theorem ite_max (a b : Int) : (if a < b then b else a) = max a b := by
  rcases le_or_lt b a with h | h
  · rw [if_neg (not_lt.mpr h), max_eq_left h]
  · rw [if_pos h, max_eq_right (le_of_lt h)]

theorem foldlAdd_uptime : ∀ (tl : List Client) (hd : Client),
    (tl.foldl Client.Add hd).uptime
      = tl.foldl (fun mx b => max mx b.uptime) hd.uptime := by
  intro tl
  induction tl with
  | nil => intro hd; rfl
  | cons b tl ih =>
      intro hd
      rw [List.foldl_cons, ih (Client.Add hd b), List.foldl_cons]
      have hAdd : (Client.Add hd b).uptime = max hd.uptime b.uptime :=
        ite_max hd.uptime b.uptime
      rw [hAdd]

theorem foldlAdd_timestamp : ∀ (tl : List Client) (hd : Client),
    (tl.foldl Client.Add hd).timestamp
      = tl.foldl (fun mx b => max mx b.timestamp) hd.timestamp := by
  intro tl
  induction tl with
  | nil => intro hd; rfl
  | cons b tl ih =>
      intro hd
      rw [List.foldl_cons, ih (Client.Add hd b), List.foldl_cons]
      have hAdd : (Client.Add hd b).timestamp = max hd.timestamp b.timestamp :=
        ite_max hd.timestamp b.timestamp
      rw [hAdd]

theorem foldlAdd_active : ∀ (tl : List Client) (hd : Client),
    (tl.foldl Client.Add hd).active
      = (hd.active || tl.any (fun b => b.active)) := by
  intro tl
  induction tl with
  | nil => intro hd; simp
  | cons b tl ih =>
      intro hd
      rw [List.foldl_cons, ih (Client.Add hd b), List.any_cons]
      have hAdd : (Client.Add hd b).active = (hd.active || b.active) := rfl
      rw [hAdd, Bool.or_assoc]

theorem foldlAdd_publishing : ∀ (tl : List Client) (hd : Client),
    (tl.foldl Client.Add hd).publishing
      = (hd.publishing || tl.any (fun b => b.publishing)) := by
  intro tl
  induction tl with
  | nil => intro hd; simp
  | cons b tl ih =>
      intro hd
      rw [List.foldl_cons, ih (Client.Add hd b), List.any_cons]
      have hAdd : (Client.Add hd b).publishing = (hd.publishing || b.publishing) := rfl
      rw [hAdd, Bool.or_assoc]

theorem bool_eq_false {b : Bool} (h : ¬ b = true) : b = false := by
  cases b
  · rfl
  · exact absurd rfl h

theorem filter_filter_of_imp {α : Type} {p q : α → Bool}
    (himp : ∀ b, q b = true → p b = true) :
    ∀ l : List α, (l.filter p).filter q = l.filter q := by
  intro l
  induction l with
  | nil => rfl
  | cons b rest ih =>
      by_cases hq : q b = true
      · have hp := himp b hq
        rw [filterC_pos p b rest hp, filterC_pos q b (rest.filter p) hq,
          filterC_pos q b rest hq, ih]
      · have hq' : q b = false := bool_eq_false hq
        by_cases hp : p b = true
        · rw [filterC_pos p b rest hp, filterC_neg q b (rest.filter p) hq',
            filterC_neg q b rest hq', ih]
        · have hp' : p b = false := bool_eq_false hp
          rw [filterC_neg p b rest hp', filterC_neg q b rest hq', ih]

theorem mem_collect_id : ∀ (l : List Client), ∀ c ∈ collect l,
    ∃ b ∈ l, c.id = b.id := by
  intro l
  induction l using collect.induct with
  | case1 =>
      intro c hc
      rw [collect] at hc
      exact absurd hc (List.not_mem_nil c)
  | case2 x rest ih =>
      intro c hc
      rw [collect_cons] at hc
      rcases List.mem_cons.mp hc with h0 | hc'
      · exact ⟨x, List.mem_cons_self _ _, by rw [h0]; exact foldlAdd_id _ x⟩
      · obtain ⟨b, hb, hid⟩ := ih c hc'
        exact ⟨b, List.mem_cons_of_mem _ (List.mem_of_mem_filter hb), hid⟩

theorem mem_collect_group : ∀ (l : List Client), ∀ c ∈ collect l,
    ∃ hd tl, l.filter (fun b => b.id == c.id) = hd :: tl ∧
      c = tl.foldl Client.Add hd := by
  intro l
  induction l using collect.induct with
  | case1 =>
      intro c hc
      rw [collect] at hc
      exact absurd hc (List.not_mem_nil c)
  | case2 x rest ih =>
      intro c hc
      rw [collect_cons] at hc
      rcases List.mem_cons.mp hc with h0 | hc'
      · refine ⟨x, rest.filter (fun b => b.id == x.id), ?_, by rw [h0]⟩
        have hid : c.id = x.id := by rw [h0]; exact foldlAdd_id _ x
        rw [show (fun b : Client => b.id == c.id) = (fun b : Client => b.id == x.id)
          from by rw [hid]]
        exact filterC_pos (fun b => b.id == x.id) x rest (by simp)
      · obtain ⟨hd, tl, hfil, hfold⟩ := ih c hc'
        have hne : c.id ≠ x.id := by
          obtain ⟨b, hb, hid⟩ := mem_collect_id _ c hc'
          have hbf := (List.mem_filter.mp hb).2
          have hbne : b.id ≠ x.id := by simpa using hbf
          rw [hid]
          exact hbne
        refine ⟨hd, tl, ?_, hfold⟩
        rw [filterC_neg (fun b => b.id == c.id) x rest
          (beq_eq_false_iff_ne.mpr (Ne.symm hne))]
        rw [← @filter_filter_of_imp Client (fun b : Client => !(b.id == x.id))
          (fun b : Client => b.id == c.id)
          (fun b hb => by
            have hbc : b.id = c.id := by simpa using hb
            simp [hbc, hne]) rest]
        exact hfil

theorem map_id_filter_ne (x : String) : ∀ l : List Client,
    (l.filter (fun b => !(b.id == x))).map (fun c => c.id)
      = (l.map (fun c => c.id)).filter (fun y => !(y == x)) := by
  intro l
  induction l with
  | nil => rfl
  | cons b rest ih =>
      by_cases hb : (b.id == x) = true
      · rw [filterC_neg (fun c : Client => !(c.id == x)) b rest (by simp [hb]),
          List.map_cons,
          filterC_neg (fun y : String => !(y == x)) b.id (rest.map fun c => c.id)
            (by simp [hb]), ih]
      · have hb' : (b.id == x) = false := bool_eq_false hb
        rw [filterC_pos (fun c : Client => !(c.id == x)) b rest (by simp [hb']),
          List.map_cons, List.map_cons,
          filterC_pos (fun y : String => !(y == x)) b.id (rest.map fun c => c.id)
            (by simp [hb']), ih]

theorem collect_map_id : ∀ l : List Client,
    (collect l).map (fun c => c.id) = dedupFirst (l.map (fun c => c.id)) := by
  intro l
  induction l using collect.induct with
  | case1 =>
      rw [collect, dedupFirst.eq_def]
      rfl
  | case2 x rest ih =>
      rw [collect_cons, List.map_cons, List.map_cons, dedupFirst_cons,
        foldlAdd_id, ih, map_id_filter_ne x.id rest]

theorem filter_partition_sum (p : Client → Bool) (f : Client → Int) :
    ∀ l : List Client,
      ((l.filter p).map f).sum + ((l.filter (fun b => !(p b))).map f).sum
        = (l.map f).sum := by
  intro l
  induction l with
  | nil => simp
  | cons b rest ih =>
      by_cases hp : p b = true
      · rw [filterC_pos p b rest hp,
          filterC_neg (fun x => !(p x)) b rest (by simp [hp]),
          List.map_cons, List.sum_cons, List.map_cons, List.sum_cons]
        omega
      · have hp' : p b = false := bool_eq_false hp
        rw [filterC_neg p b rest hp',
          filterC_pos (fun x => !(p x)) b rest (by simp [hp']),
          List.map_cons, List.sum_cons, List.map_cons, List.sum_cons]
        omega

theorem collect_sum_entries : ∀ l : List Client,
    ((collect l).map (fun c => c.entriesCount)).sum
      = (l.map (fun c => c.entriesCount)).sum := by
  intro l
  induction l using collect.induct with
  | case1 =>
      rw [collect]
  | case2 x rest ih =>
      rw [collect_cons, List.map_cons, List.sum_cons, foldlAdd_entriesCount, ih,
        List.map_cons, List.sum_cons]
      have hpart := filter_partition_sum (fun b => b.id == x.id)
        (fun c => c.entriesCount) rest
      omega

theorem sum_entries_ones : ∀ l : List Client, (∀ x ∈ l, x.entriesCount = 1) →
    (l.map (fun b => b.entriesCount)).sum = (l.length : Int) := by
  intro l
  induction l with
  | nil => intro _; simp
  | cons b rest ih =>
      intro h
      rw [List.map_cons, List.sum_cons, h b (List.mem_cons_self _ _),
        ih (fun x hx => h x (List.mem_cons_of_mem _ hx)), List.length_cons]
      push_cast
      omega

theorem mapped_entries_one (mapper : String → String → String) (name : String)
    (cs : List Client) (h : ∀ c ∈ cs, c.entriesCount = 1) :
    ∀ x ∈ cs.map (remapClient mapper name), x.entriesCount = 1 := by
  intro x hx
  obtain ⟨y, hy, rfl⟩ := List.mem_map.mp hx
  exact h y hy

theorem map_remap_entries (mapper : String → String → String) (name : String)
    (cs : List Client) :
    (cs.map (remapClient mapper name)).map (fun c => c.entriesCount)
      = cs.map (fun c => c.entriesCount) := by
  rw [List.map_map]
  rfl

theorem get_map {α β : Type} (f : α → β) :
    ∀ (l : List α) (i : Nat) (h : i < l.length) (h2 : i < (l.map f).length),
      (l.map f).get ⟨i, h2⟩ = f (l.get ⟨i, h⟩) := by
  intro l
  induction l with
  | nil =>
      intro i h h2
      exact absurd h (Nat.not_lt_zero i)
  | cons a rest ih =>
      intro i h h2
      cases i with
      | zero => rfl
      | succ n => exact ih n (Nat.lt_of_succ_lt_succ h) (Nat.lt_of_succ_lt_succ h2)

/-! ## C2: client-mapper aggregation semantics -/

/-- **C2**: `WithClientMapper` replaces each stream's client list by merging
clients with equal mapped identifiers pairwise in encounter order via
`Client.Add`: each output client is the fold of its identifier group, so it
keeps the first-seen address, player version, page URL, source URL and
AV-sync offset, sums `DroppedFrames` and `EntriesCount`, takes the maximum
`Uptime`/`Timestamp` and the disjunction of `Active`/`Publishing`; output
clients appear in the order their merged identifier was first produced. -/
theorem clientMapper_aggregation (s : Stats) (mapper : String → String → String) :
    (withClientMapper mapper s).1 = none ∧
    (withClientMapper mapper s).2.applications
      = s.applications.map (fun app =>
          { app with streams := app.streams.map (fun st =>
              { st with clients := aggregateClients mapper st.name st.clients }) }) ∧
    ∀ (name : String) (cs : List Client),
      (aggregateClients mapper name cs).map (fun c => c.id)
        = dedupFirst ((cs.map (remapClient mapper name)).map (fun c => c.id)) ∧
      ∀ c ∈ aggregateClients mapper name cs,
        ∃ hd tl,
          (cs.map (remapClient mapper name)).filter (fun b => b.id == c.id)
            = hd :: tl ∧
          c = tl.foldl Client.Add hd ∧
          c.address = hd.address ∧
          c.flashVersion = hd.flashVersion ∧
          c.pageURL = hd.pageURL ∧
          c.swfURL = hd.swfURL ∧
          c.avSync = hd.avSync ∧
          c.droppedFrames
            = hd.droppedFrames + (tl.map (fun b => b.droppedFrames)).sum ∧
          c.uptime = tl.foldl (fun mx b => max mx b.uptime) hd.uptime ∧
          c.timestamp = tl.foldl (fun mx b => max mx b.timestamp) hd.timestamp ∧
          c.active = (hd.active || tl.any (fun b => b.active)) ∧
          c.publishing = (hd.publishing || tl.any (fun b => b.publishing)) ∧
          c.entriesCount
            = hd.entriesCount + (tl.map (fun b => b.entriesCount)).sum := by
  refine ⟨rfl, rfl, ?_⟩
  intro name cs
  have hagg : aggregateClients mapper name cs
      = collect (cs.map (remapClient mapper name)) :=
    foldl_aggStep_eq_collect _
  constructor
  · rw [hagg, collect_map_id]
  · intro c hc
    rw [hagg] at hc
    obtain ⟨hd, tl, hfil, hfold⟩ := mem_collect_group _ c hc
    refine ⟨hd, tl, hfil, hfold, ?_, ?_, ?_, ?_, ?_, ?_, ?_, ?_, ?_, ?_, ?_⟩
    · rw [hfold]; exact foldlAdd_address tl hd
    · rw [hfold]; exact foldlAdd_flashVersion tl hd
    · rw [hfold]; exact foldlAdd_pageURL tl hd
    · rw [hfold]; exact foldlAdd_swfURL tl hd
    · rw [hfold]; exact foldlAdd_avSync tl hd
    · rw [hfold]; exact foldlAdd_droppedFrames tl hd
    · rw [hfold]; exact foldlAdd_uptime tl hd
    · rw [hfold]; exact foldlAdd_timestamp tl hd
    · rw [hfold]; exact foldlAdd_active tl hd
    · rw [hfold]; exact foldlAdd_publishing tl hd
    · rw [hfold]; exact foldlAdd_entriesCount tl hd

/-- Witness for **C2** at the repository test's scenario: `sum_a`, `other_a`,
`sum_b` with the mapper collapsing `sum_a`/`sum_b` to `sum`. -/
theorem clientMapper_aggregation_witness :
    exMerged ∈ aggregateClients exMapper "stream" exClients ∧
    ∃ hd tl,
      (exClients.map (remapClient exMapper "stream")).filter
          (fun b => b.id == exMerged.id) = hd :: tl ∧
      exMerged = tl.foldl Client.Add hd ∧
      exMerged.address = hd.address ∧
      exMerged.flashVersion = hd.flashVersion ∧
      exMerged.pageURL = hd.pageURL ∧
      exMerged.swfURL = hd.swfURL ∧
      exMerged.avSync = hd.avSync ∧
      exMerged.droppedFrames
        = hd.droppedFrames + (tl.map (fun b => b.droppedFrames)).sum ∧
      exMerged.uptime = tl.foldl (fun mx b => max mx b.uptime) hd.uptime ∧
      exMerged.timestamp
        = tl.foldl (fun mx b => max mx b.timestamp) hd.timestamp ∧
      exMerged.active = (hd.active || tl.any (fun b => b.active)) ∧
      exMerged.publishing = (hd.publishing || tl.any (fun b => b.publishing)) ∧
      exMerged.entriesCount
        = hd.entriesCount + (tl.map (fun b => b.entriesCount)).sum := by
  have hmem : exMerged ∈ aggregateClients exMapper "stream" exClients := by decide
  exact ⟨hmem,
    ((clientMapper_aggregation exStats exMapper).2.2 "stream" exClients).2
      exMerged hmem⟩

/-! ## C9: EntriesCount conservation -/

/-- **C9**: `WithClientMapper` preserves the per-stream sum of
`EntriesCount`; when every input client carries `EntriesCount = 1` (the
freshly decoded baseline) each output client's `EntriesCount` equals the
number of raw records merged into it (the size of its identifier group) and
the per-stream total equals the original number of clients. -/
theorem entriesCount_conservation (mapper : String → String → String)
    (name : String) (cs : List Client) :
    ((aggregateClients mapper name cs).map (fun c => c.entriesCount)).sum
      = (cs.map (fun c => c.entriesCount)).sum ∧
    ((∀ c ∈ cs, c.entriesCount = 1) →
      (∀ c ∈ aggregateClients mapper name cs,
        c.entriesCount
          = (((cs.map (remapClient mapper name)).filter
              (fun b => b.id == c.id)).length : Int)) ∧
      ((aggregateClients mapper name cs).map (fun c => c.entriesCount)).sum
        = (cs.length : Int)) := by
  have hagg : aggregateClients mapper name cs
      = collect (cs.map (remapClient mapper name)) :=
    foldl_aggStep_eq_collect _
  have hsum : ((aggregateClients mapper name cs).map
        (fun c => c.entriesCount)).sum
      = (cs.map (fun c => c.entriesCount)).sum := by
    rw [hagg, collect_sum_entries, map_remap_entries]
  refine ⟨hsum, ?_⟩
  intro h1
  constructor
  · intro c hc
    rw [hagg] at hc
    obtain ⟨hd, tl, hfil, hfold⟩ := mem_collect_group _ c hc
    have hones := mapped_entries_one mapper name cs h1
    have hhd : hd.entriesCount = 1 := by
      have hmemf : hd ∈ (cs.map (remapClient mapper name)).filter
          (fun b => b.id == c.id) := by
        rw [hfil]
        exact List.mem_cons_self _ _
      exact hones hd (List.mem_of_mem_filter hmemf)
    have htl : ∀ x ∈ tl, x.entriesCount = 1 := by
      intro x hx
      have hmemf : x ∈ (cs.map (remapClient mapper name)).filter
          (fun b => b.id == c.id) := by
        rw [hfil]
        exact List.mem_cons_of_mem _ hx
      exact hones x (List.mem_of_mem_filter hmemf)
    rw [hfil, List.length_cons, hfold, foldlAdd_entriesCount, hhd,
      sum_entries_ones tl htl]
    push_cast
    omega
  · rw [hsum, sum_entries_ones cs h1]

/-- Witness for **C9** at the three-client aggregation example. -/
theorem entriesCount_conservation_witness :
    (∀ c ∈ exClients, c.entriesCount = 1) ∧
    (∀ c ∈ aggregateClients exMapper "stream" exClients,
      c.entriesCount
        = (((exClients.map (remapClient exMapper "stream")).filter
            (fun b => b.id == c.id)).length : Int)) ∧
    ((aggregateClients exMapper "stream" exClients).map
        (fun c => c.entriesCount)).sum = (exClients.length : Int) :=
  ⟨by decide,
   (entriesCount_conservation exMapper "stream" exClients).2 (by decide)⟩

/-! ## C10: frame effect of the client mapper -/

/-- **C10**: `WithClientMapper` modifies only each stream's client list:
every server-level field, every application name, and every stream field
other than `Clients` — in particular `NumClients` — is unchanged, and the
stream's client list becomes its aggregated form; consequently (shown on a
concrete merged example) a stream's `NumClients` can exceed the length of
its post-mutation client list. -/
theorem clientMapper_frame (s : Stats) (mapper : String → String → String) :
    (withClientMapper mapper s).1 = none ∧
    (withClientMapper mapper s).2.nginxVersion = s.nginxVersion ∧
    (withClientMapper mapper s).2.nginxRTMPVersion = s.nginxRTMPVersion ∧
    (withClientMapper mapper s).2.compiler = s.compiler ∧
    (withClientMapper mapper s).2.built = s.built ∧
    (withClientMapper mapper s).2.pid = s.pid ∧
    (withClientMapper mapper s).2.uptime = s.uptime ∧
    (withClientMapper mapper s).2.accepted = s.accepted ∧
    (withClientMapper mapper s).2.bitrateIn = s.bitrateIn ∧
    (withClientMapper mapper s).2.bitrateOut = s.bitrateOut ∧
    (withClientMapper mapper s).2.bytesIn = s.bytesIn ∧
    (withClientMapper mapper s).2.bytesOut = s.bytesOut ∧
    (withClientMapper mapper s).2.applications.length
      = s.applications.length ∧
    (∀ i, ∀ hi : i < s.applications.length,
      ∃ hi2 : i < (withClientMapper mapper s).2.applications.length,
        ((withClientMapper mapper s).2.applications.get ⟨i, hi2⟩).name
          = (s.applications.get ⟨i, hi⟩).name ∧
        ((withClientMapper mapper s).2.applications.get ⟨i, hi2⟩).streams.length
          = (s.applications.get ⟨i, hi⟩).streams.length ∧
        ∀ j, ∀ hj : j < (s.applications.get ⟨i, hi⟩).streams.length,
          ∃ hj2 : j < ((withClientMapper mapper s).2.applications.get
              ⟨i, hi2⟩).streams.length,
            Stream.frameEq
              (((withClientMapper mapper s).2.applications.get
                  ⟨i, hi2⟩).streams.get ⟨j, hj2⟩)
              ((s.applications.get ⟨i, hi⟩).streams.get ⟨j, hj⟩) ∧
            (((withClientMapper mapper s).2.applications.get
                ⟨i, hi2⟩).streams.get ⟨j, hj2⟩).clients
              = aggregateClients mapper
                  ((s.applications.get ⟨i, hi⟩).streams.get ⟨j, hj⟩).name
                  ((s.applications.get ⟨i, hi⟩).streams.get ⟨j, hj⟩).clients) ∧
    ((statStream0 (withClientMapper exMapper10 exStats10).2).clients.length : Int)
      < (statStream0 (withClientMapper exMapper10 exStats10).2).numClients := by
  refine ⟨rfl, rfl, rfl, rfl, rfl, rfl, rfl, rfl, rfl, rfl, rfl, rfl,
    List.length_map _ _, ?_, by decide⟩
  intro i hi
  have hi2 : i < (withClientMapper mapper s).2.applications.length := by
    show i < (s.applications.map _).length
    rw [List.length_map]
    exact hi
  have hgeti : (withClientMapper mapper s).2.applications.get ⟨i, hi2⟩
      = { s.applications.get ⟨i, hi⟩ with
          streams := (s.applications.get ⟨i, hi⟩).streams.map (fun st =>
            { st with clients := aggregateClients mapper st.name st.clients }) } :=
    get_map _ s.applications i hi hi2
  refine ⟨hi2, ?_, ?_, ?_⟩
  · rw [hgeti]
  · rw [hgeti]
    exact List.length_map _ _
  · intro j hj
    have hj2 : j < ((withClientMapper mapper s).2.applications.get
        ⟨i, hi2⟩).streams.length := by
      rw [hgeti]
      show j < ((s.applications.get ⟨i, hi⟩).streams.map _).length
      rw [List.length_map]
      exact hj
    refine ⟨hj2, ?_, ?_⟩
    · have hgetj : ((withClientMapper mapper s).2.applications.get
          ⟨i, hi2⟩).streams.get ⟨j, hj2⟩
          = { (s.applications.get ⟨i, hi⟩).streams.get ⟨j, hj⟩ with
              clients := aggregateClients mapper
                ((s.applications.get ⟨i, hi⟩).streams.get ⟨j, hj⟩).name
                ((s.applications.get ⟨i, hi⟩).streams.get ⟨j, hj⟩).clients } := by
        have hs : ((withClientMapper mapper s).2.applications.get
            ⟨i, hi2⟩).streams
            = (s.applications.get ⟨i, hi⟩).streams.map (fun st =>
                { st with clients := aggregateClients mapper st.name st.clients }) := by
          rw [hgeti]
        rw [get_congr hs j hj2 (by rw [List.length_map]; exact hj)]
        exact get_map _ _ j hj _
      rw [hgetj]
      exact ⟨rfl, rfl, rfl, rfl, rfl, rfl, rfl, rfl, rfl, rfl, rfl, rfl, rfl,
        rfl, rfl, rfl, rfl, rfl, rfl, rfl, rfl, rfl⟩
    · have hs : ((withClientMapper mapper s).2.applications.get
          ⟨i, hi2⟩).streams
          = (s.applications.get ⟨i, hi⟩).streams.map (fun st =>
              { st with clients := aggregateClients mapper st.name st.clients }) := by
        rw [hgeti]
      rw [get_congr hs j hj2 (by rw [List.length_map]; exact hj)]
      rw [get_map _ _ j hj _]

/-- Witness for **C10** at `exStats10` (two clients merged into one while
`NumClients` stays 2), instantiated at application 0, stream 0. -/
theorem clientMapper_frame_witness :
    (0 < exStats10.applications.length ∧
     0 < (exStats10.applications.get ⟨0, Nat.one_pos⟩).streams.length) ∧
    (∃ hi2 : 0 < (withClientMapper exMapper10 exStats10).2.applications.length,
      ((withClientMapper exMapper10 exStats10).2.applications.get
          ⟨0, hi2⟩).name
        = (exStats10.applications.get ⟨0, Nat.one_pos⟩).name ∧
      ((withClientMapper exMapper10 exStats10).2.applications.get
          ⟨0, hi2⟩).streams.length
        = (exStats10.applications.get ⟨0, Nat.one_pos⟩).streams.length ∧
      ∀ j, ∀ hj : j < (exStats10.applications.get
          ⟨0, Nat.one_pos⟩).streams.length,
        ∃ hj2 : j < ((withClientMapper exMapper10 exStats10).2.applications.get
            ⟨0, hi2⟩).streams.length,
          Stream.frameEq
            (((withClientMapper exMapper10 exStats10).2.applications.get
                ⟨0, hi2⟩).streams.get ⟨j, hj2⟩)
            ((exStats10.applications.get ⟨0, Nat.one_pos⟩).streams.get ⟨j, hj⟩) ∧
          (((withClientMapper exMapper10 exStats10).2.applications.get
              ⟨0, hi2⟩).streams.get ⟨j, hj2⟩).clients
            = aggregateClients exMapper10
                ((exStats10.applications.get
                    ⟨0, Nat.one_pos⟩).streams.get ⟨j, hj⟩).name
                ((exStats10.applications.get
                    ⟨0, Nat.one_pos⟩).streams.get ⟨j, hj⟩).clients) :=
  ⟨⟨Nat.one_pos, Nat.one_pos⟩,
   ((clientMapper_frame exStats10 exMapper10).2.2.2.2.2.2.2.2.2.2.2.2.2.1)
     0 Nat.one_pos⟩

/-! ## C1: server uptime decoding -/

/-- **C1** (counterexample): a wire document whose server uptime field holds
`93879500` decodes to an uptime of 93879500 seconds (93879500·10⁹ ns), not
to the 93879 seconds the claim asserts — the
`/ time.Millisecond * time.Second` rescale multiplies the wire integer by
10⁹ instead of flooring it to whole seconds. -/
theorem uptime_decode_floor_counterexample :
    (decodeStats c1wire).uptime = 93879500 * 1000000000 ∧
    (decodeStats c1wire).uptime ≠ 93879 * 1000000000 := by
  decide

/-- **C1** (amended): for every wire document whose server uptime field holds
the integer `w`, the decoded `Stats.Uptime` equals exactly `w` seconds
(`w`·10⁹ nanoseconds): the millisecond interpretation introduced by the
`Duration` adapter is divided away and rescaled to seconds, because the wire
field is server uptime in seconds — no flooring takes place. -/
theorem uptime_decode_seconds (w : StatsWire) :
    (decodeStats w).uptime = w.uptime * 1000000000 := by
  show Int.tdiv (1000000 * w.uptime) 1000000 * 1000000000 = w.uptime * 1000000000
  rw [Int.mul_tdiv_cancel_left w.uptime (by decide)]

/-! ## C5: presence-boolean decoding -/

/-- **C5**: for every decoded stream or client record, the presence-boolean
fields (`active`, `publishing`) are true exactly when the corresponding tag
is present in the wire record (whatever its body, including empty bodies),
and false when it is absent; and the decode of the record does not depend on
the tag's body content. -/
theorem presence_boolean_decode (cw : ClientWire) (sw : StreamWire)
    (b b' : String) :
    (decodeClient cw).active = cw.active.isSome ∧
    (decodeClient cw).publishing = cw.publishing.isSome ∧
    (decodeStream sw).active = sw.active.isSome ∧
    (decodeStream sw).publishing = sw.publishing.isSome ∧
    decodeClient { cw with active := some b }
      = decodeClient { cw with active := some b' } ∧
    decodeClient { cw with publishing := some b }
      = decodeClient { cw with publishing := some b' } ∧
    decodeStream { sw with active := some b }
      = decodeStream { sw with active := some b' } ∧
    decodeStream { sw with publishing := some b }
      = decodeStream { sw with publishing := some b' } :=
  ⟨decodeBoolField_eq_isSome cw.active, decodeBoolField_eq_isSome cw.publishing,
   decodeBoolField_eq_isSome sw.active, decodeBoolField_eq_isSome sw.publishing,
   rfl, rfl, rfl, rfl⟩

/-! ## C6: freshly decoded clients -/

/-- **C6**: every client of a decoded wire document has `EntriesCount = 1`
before any mutator is applied; the field is never taken from the wire (the
wire record carries no such field at all). -/
theorem entriesCount_fresh_decode (sw : StatsWire) :
    ∀ app ∈ (decodeStats sw).applications, ∀ st ∈ app.streams,
      ∀ c ∈ st.clients, c.entriesCount = 1 := by
  intro app happ st hst c hc
  simp only [decodeStats, List.mem_map] at happ
  obtain ⟨aw, -, rfl⟩ := happ
  simp only [decodeApplication, List.mem_map] at hst
  obtain ⟨stw, -, rfl⟩ := hst
  simp only [decodeStream, List.mem_map] at hc
  obtain ⟨cw, -, rfl⟩ := hc
  rfl

/-- Witness for **C6** at the concrete one-client wire document `exWire`. -/
theorem entriesCount_fresh_decode_witness :
    (decodeApplication exAppWire ∈ (decodeStats exWire).applications ∧
     decodeStream exStreamWire ∈ (decodeApplication exAppWire).streams ∧
     decodeClient exClientWire ∈ (decodeStream exStreamWire).clients) ∧
    (decodeClient exClientWire).entriesCount = 1 := by
  have h1 : decodeApplication exAppWire ∈ (decodeStats exWire).applications :=
    show decodeApplication exAppWire ∈ [decodeApplication exAppWire] from
      List.mem_singleton.mpr rfl
  have h2 : decodeStream exStreamWire ∈ (decodeApplication exAppWire).streams :=
    show decodeStream exStreamWire ∈ [decodeStream exStreamWire] from
      List.mem_singleton.mpr rfl
  have h3 : decodeClient exClientWire ∈ (decodeStream exStreamWire).clients :=
    show decodeClient exClientWire ∈ [decodeClient exClientWire] from
      List.mem_singleton.mpr rfl
  exact ⟨⟨h1, h2, h3⟩,
    entriesCount_fresh_decode exWire (decodeApplication exAppWire) h1
      (decodeStream exStreamWire) h2 (decodeClient exClientWire) h3⟩

/-! ## C8: publisher selection -/

/-- **C8**: the publisher reported by the collector for a stream is the first
client in the stream's client list whose publishing flag is set, or the
zero-valued client (empty identifier) when no client is publishing. -/
theorem publisher_selection (cs : List Client) :
    ((∀ c ∈ cs, c.publishing = false) → (selectPublisher cs).id = "") ∧
    (∀ i, ∀ hi : i < cs.length, (cs.get ⟨i, hi⟩).publishing = true →
      (∀ j, ∀ hj : j < i, (cs.get ⟨j, Nat.lt_trans hj hi⟩).publishing = false) →
      (selectPublisher cs).id = (cs.get ⟨i, hi⟩).id) := by
  induction cs with
  | nil =>
      refine ⟨fun _ => rfl, ?_⟩
      intro i hi
      exact absurd hi (Nat.not_lt_zero i)
  | cons c rest ih =>
      constructor
      · intro h
        have hc : c.publishing = false := h c (List.mem_cons_self c rest)
        have htail := ih.1 (fun x hx => h x (List.mem_cons_of_mem c hx))
        simp [selectPublisher, hc, htail]
      · intro i hi hpub hprev
        cases i with
        | zero =>
            have hc : c.publishing = true := hpub
            simp [selectPublisher, hc]
        | succ n =>
            have hc : c.publishing = false := hprev 0 (Nat.succ_pos n)
            have htail := ih.2 n (Nat.lt_of_succ_lt_succ hi) hpub
              (fun j hj => hprev (j + 1) (Nat.succ_lt_succ hj))
            simp only [selectPublisher, hc]
            simpa using htail

/-- Witness for **C8**: with clients `A` (not publishing), `B` and `C` (both
publishing), the selected publisher identifier is B's. -/
theorem publisher_selection_witness :
    (1 < pubClients.length ∧
     (pubClients.get ⟨1, Nat.lt_of_sub_eq_succ rfl⟩).publishing = true) ∧
    (selectPublisher pubClients).id = "B" := by
  have hi : 1 < pubClients.length := by decide
  have hprev : ∀ j, ∀ hj : j < 1,
      (pubClients.get ⟨j, Nat.lt_trans hj hi⟩).publishing = false := by
    intro j hj
    have hj0 : j = 0 := Nat.lt_one_iff.mp hj
    subst hj0
    rfl
  have h := (publisher_selection pubClients).2 1 hi rfl hprev
  exact ⟨⟨by decide, rfl⟩, h.trans rfl⟩

end RtmpExporter
